import Mathlib

/-!
Verification of the in-memory tag database of `ms-creator-mcp-server`
(`src/database.ts`): the `DatabaseLoader.transform` flattening, the
`DatabaseHandler` index construction and query operations, and the
`DatabaseFormatter` text rendering, shallowly embedded in Lean.

JavaScript plain objects used as dictionaries are embedded as association
lists (`JsMap`) preserving insertion order of keys, which matches the
JS iteration order of `Object.keys` / `Object.entries` for the
non-integer-like string keys this program uses.  A JS `TypeError` thrown
by an access on `undefined` is embedded as `Option.none`.
-/

namespace MsCreator

/-- `DatabaseRawTagRecord` from `src/types.ts`: one raw tag entry.
`link` is `string | null`; `sample_code` and `html_output_image` are
optional fields, both embedded as `Option String`. -/
structure DatabaseRawTagRecord where
  tag : String
  description : String
  link : Option String
  sample_code : Option String
  html_output_image : Option String
deriving DecidableEq

/-- `DatabaseRawCategoryRecord` from `src/types.ts`: a raw category with its
`tags` object, embedded as an insertion-ordered association list from
sub-category name to tag entries. -/
structure DatabaseRawCategoryRecord where
  name : String
  link : String
  tags : List (String × List DatabaseRawTagRecord)
deriving DecidableEq

/-- `DatabaseRecord` from `src/types.ts`: the flat, normalized record. -/
structure DatabaseRecord where
  tagName : String
  categoryName : String
  categorySubName : String
  tagDescription : String
  categoryLink : String
  tagLink : Option String
  tagSampleCode : Option String
  tagHtmlOutputImage : Option String
deriving DecidableEq

/-- A JavaScript plain object used as a string-keyed dictionary:
an association list in key insertion order. -/
abbrev JsMap (α : Type) : Type := List (String × α)

/-- JS property read `m[k]`: `none` embeds JS `undefined`. -/
def jsGet {α : Type} : JsMap α → String → Option α
  | [], _ => none
  | p :: ps, k => if p.1 = k then some p.2 else jsGet ps k

/-- JS property write `m[k] = v`: updates the existing key in place,
otherwise appends the key, preserving JS key insertion order. -/
def jsSet {α : Type} (m : JsMap α) (k : String) (v : α) : JsMap α :=
  if (jsGet m k).isSome then
    m.map (fun p => if p.1 = k then (k, v) else p)
  else
    m ++ [(k, v)]

/-- JS `if (!m[k]) m[k] = []; m[k].push(r)` on an array-valued object. -/
def pushAt (m : JsMap (List DatabaseRecord)) (k : String) (r : DatabaseRecord) :
    JsMap (List DatabaseRecord) :=
  jsSet m k ((jsGet m k).getD [] ++ [r])

/-- JS `Set.prototype.add` on a string set represented in insertion order. -/
def setInsert (l : List String) (x : String) : List String :=
  if x ∈ l then l else l ++ [x]

/-- `[...new Set(xs)]`: the distinct elements of `xs` in first-occurrence
order. -/
def jsSetOf (xs : List String) : List String :=
  xs.foldl setInsert []

/-- First-occurrence deduplication relative to an already-seen list;
the reference shape of JS `Set` insertion and of object key creation. -/
def dedupFrom : List String → List String → List String
  | _, [] => []
  | seen, x :: xs =>
    if x ∈ seen then dedupFrom seen xs else x :: dedupFrom (seen ++ [x]) xs

/-- JS `Array.prototype.join(sep)`. -/
def joinSep (sep : String) : List String → String
  | [] => ""
  | [x] => x
  | x :: y :: xs => x ++ sep ++ joinSep sep (y :: xs)

/-- JS `x || fb` where `x : string | null`: the fallback is taken on the
falsy values `null` and `""`. -/
def jsOrString : Option String → String → String
  | none, fb => fb
  | some s, fb => if s = "" then fb else s

/-- JS `s.startsWith(p)`. -/
def jsStartsWith (s p : String) : Bool :=
  p.data.isPrefixOf s.data

/-- JS `s.includes(p)`: unanchored case-sensitive substring test. -/
def jsIncludes (s p : String) : Bool :=
  decide (p.data <:+: s.data)

/-- The record pushed by `DatabaseLoader.transform` for one tag entry: every
raw field is carried over verbatim; the JS `?? null` on the two optional
fields is the identity on the `Option` embedding. -/
def recordOfTag (category : DatabaseRawCategoryRecord) (categorySubName : String)
    (tagData : DatabaseRawTagRecord) : DatabaseRecord :=
  { tagName := tagData.tag
    categoryName := category.name
    categorySubName := categorySubName
    tagDescription := tagData.description
    categoryLink := category.link
    tagLink := tagData.link
    tagSampleCode := tagData.sample_code
    tagHtmlOutputImage := tagData.html_output_image }

/-- `DatabaseLoader.transform`: flattens the raw categories into records,
iterating categories in source order, each category's `tags` entries in key
order, and each tag list in order, pushing one `DatabaseRecord` per tag. -/
def transform (rawCategories : List DatabaseRawCategoryRecord) : List DatabaseRecord :=
  rawCategories.foldl
    (fun records category =>
      category.tags.foldl
        (fun records entry =>
          entry.2.foldl
            (fun records tagData => records ++ [recordOfTag category entry.1 tagData])
            records)
        records)
    []

/-- The `reduce` in `DatabaseHandler`'s constructor building a one-level
grouping object, generic in the grouping key (`categoryName` for
`dbByCategory`, `categorySubName` for the inner level of
`dbBySubCategory`). -/
def buildGroups (key : DatabaseRecord → String) (acc : JsMap (List DatabaseRecord))
    (db : List DatabaseRecord) : JsMap (List DatabaseRecord) :=
  db.foldl (fun a r => pushAt a (key r) r) acc

/-- `this.dbByCategory` as built by the `DatabaseHandler` constructor. -/
def dbByCategory (db : List DatabaseRecord) : JsMap (List DatabaseRecord) :=
  buildGroups (fun r => r.categoryName) [] db

/-- One step of the `reduce` building `this.dbBySubCategory`:
`if (!acc[cat]) acc[cat] = {}; if (!acc[cat][sub]) acc[cat][sub] = [];
acc[cat][sub].push(record)`. -/
def bySubStep (acc : JsMap (JsMap (List DatabaseRecord))) (r : DatabaseRecord) :
    JsMap (JsMap (List DatabaseRecord)) :=
  jsSet acc r.categoryName (pushAt ((jsGet acc r.categoryName).getD []) r.categorySubName r)

/-- `this.dbBySubCategory` as built by the `DatabaseHandler` constructor. -/
def dbBySubCategory (db : List DatabaseRecord) : JsMap (JsMap (List DatabaseRecord)) :=
  db.foldl bySubStep []

/-- `this.categories = [...new Set(this.dbRaw.map(r => r.categoryName))]`. -/
def getCategories (db : List DatabaseRecord) : List String :=
  jsSetOf (db.map (fun r => r.categoryName))

/-- `DatabaseHandler.getSubCategories`:
`Object.keys(this.dbBySubCategory[categoryName] || [])`. -/
def getSubCategories (db : List DatabaseRecord) (categoryName : String) : List String :=
  ((jsGet (dbBySubCategory db) categoryName).getD []).map Prod.fst

/-- `DatabaseHandler.searchByCategory`:
`this.dbByCategory[category] || []`. -/
def searchByCategory (db : List DatabaseRecord) (category : String) : List DatabaseRecord :=
  (jsGet (dbByCategory db) category).getD []

/-- `DatabaseHandler.searchBySubCategory`:
`this.dbBySubCategory[category][subCategory] || []`.  When the outer
`category` key is absent the JS member access on `undefined` throws a
`TypeError`, embedded here as `none`; otherwise the result is `some`. -/
def searchBySubCategory (db : List DatabaseRecord) (category subCategory : String) :
    Option (List DatabaseRecord) :=
  (jsGet (dbBySubCategory db) category).map
    (fun inner => (jsGet inner subCategory).getD [])

/-- `DatabaseHandler.searchByTagName`: linear filter on strict equality. -/
def searchByTagName (db : List DatabaseRecord) (tagName : String) : List DatabaseRecord :=
  db.filter (fun record => record.tagName == tagName)

/-- `DatabaseHandler.searchByTagDescription`: linear filter on
`record.tagDescription.includes(keyword) ||
record.tagHtmlOutputImage?.includes(keyword)`; the optional chaining on a
`null` field is falsy. -/
def searchByTagDescription (db : List DatabaseRecord) (keyword : String) :
    List DatabaseRecord :=
  db.filter (fun record =>
    jsIncludes record.tagDescription keyword ||
      (record.tagHtmlOutputImage.map (fun s => jsIncludes s keyword)).getD false)

/-- `DatabaseFormatter.formatAsCategories`. -/
def formatAsCategories (categories : List String) : String :=
  if categories.length = 0 then
    "Error: No categories found"
  else
    "## Categories\n" ++ joinSep "\n" (categories.map (fun category => "- " ++ category))

/-- `DatabaseFormatter.formatAsSubCategories`. -/
def formatAsSubCategories (subCategories : List String) : String :=
  if subCategories.length = 0 then
    "Error: No sub categories found"
  else
    "## Sub categories\n" ++ joinSep "\n" (subCategories.map (fun category => "- " ++ category))

/-- The per-record block of `DatabaseFormatter.formatAsTagInfo` (the body of
the `map` callback): records whose tag name does not start with `.list[i]`
get the plain heading and an Output Example section; the others get the
`"$item.group"`-prefixed heading and no Output Example section. -/
def tagInfoEntry (tag : DatabaseRecord) : String :=
  if ¬ (jsStartsWith tag.tagName ".list[i]" = true) then
    joinSep "\n"
      [ "## " ++ tag.tagName
      , tag.tagDescription
      , ""
      , "### Category"
      , tag.categoryName
      , "### Sub Category"
      , tag.categorySubName
      , "### Code Example"
      , jsOrString tag.tagSampleCode "No example provided"
      , "### Output Example"
      , jsOrString tag.tagHtmlOutputImage "No example provided" ]
  else
    joinSep "\n"
      [ "## " ++ ("$item.group" ++ tag.tagName)
      , tag.tagDescription
      , ""
      , "### Category"
      , tag.categoryName
      , "### Sub Category"
      , tag.categorySubName
      , "### Code Example"
      , jsOrString tag.tagSampleCode "No example provided" ]

/-- `DatabaseFormatter.formatAsTagInfo`. -/
def formatAsTagInfo (tags : List DatabaseRecord) : String :=
  if tags.length = 0 then
    "Error: No tags found"
  else
    joinSep "\n\n" (tags.map tagInfoEntry)

/-- The per-record block of `DatabaseFormatter.formatAsSourceInfo`. -/
def sourceInfoEntry (tag : DatabaseRecord) : String :=
  joinSep "\n"
    [ "## " ++ tag.tagName
    , tag.tagDescription
    , ""
    , "### Category"
    , tag.categoryName
    , "### Sub Category"
    , tag.categorySubName
    , "### Category source link"
    , tag.categoryLink
    , "### Tag source link"
    , jsOrString tag.tagLink "No tag source provided" ]

/-- `DatabaseFormatter.formatAsSourceInfo`. -/
def formatAsSourceInfo (tags : List DatabaseRecord) : String :=
  if tags.length = 0 then
    "Error: No tags found"
  else
    joinSep "\n\n" (tags.map sourceInfoEntry)

/-- Concatenation of the sub-category result lists of one category, taken
in `getSubCategories` order (a thrown lookup is flattened to `[]`; it never
occurs for sub-categories listed by `getSubCategories`). -/
def subCategoryConcat (db : List DatabaseRecord) (category : String) : List DatabaseRecord :=
  ((getSubCategories db category).map
    (fun s => (searchBySubCategory db category s).getD [])).flatten

/-- A record constructor for concrete test data. -/
def mkRec (t c s : String) : DatabaseRecord :=
  { tagName := t, categoryName := c, categorySubName := s, tagDescription := "d"
    categoryLink := "l", tagLink := none, tagSampleCode := none, tagHtmlOutputImage := none }

/-- A raw tag entry for concrete test data. -/
def mkTag (t : String) : DatabaseRawTagRecord :=
  { tag := t, description := "d", link := none, sample_code := none, html_output_image := none }

/-- A concrete raw input in which the category name `"C"` occurs in two raw
category entries whose sub-category key sets overlap, so that records of
sub-category `"A"` and `"B"` interleave in the flattened list. -/
def rawDupCategory : List DatabaseRawCategoryRecord :=
  [ { name := "C", link := "l", tags := [("A", [mkTag "t1"]), ("B", [mkTag "t2"])] }
  , { name := "C", link := "l", tags := [("A", [mkTag "t3"])] } ]

/-- A concrete raw tag entry whose optional fields are absent. -/
def rawSingleTag : DatabaseRawTagRecord :=
  { tag := "t", description := "d", link := some "tl",
    sample_code := none, html_output_image := none }

/-- A concrete raw category entry holding only `rawSingleTag`. -/
def rawSingleCat : DatabaseRawCategoryRecord :=
  { name := "C", link := "L", tags := [("S", [rawSingleTag])] }

/-- A concrete one-category, one-tag raw input. -/
def rawSingle : List DatabaseRawCategoryRecord :=
  [rawSingleCat]

section MapLemmas

variable {α : Type}

theorem jsGet_map_update_of_some {m : JsMap α} {k : String} {w : α} (v : α)
    (h : jsGet m k = some w) :
    jsGet (m.map (fun p => if p.1 = k then (k, v) else p)) k = some v := by
  induction m with
  | nil => simp [jsGet] at h
  | cons p ps ih =>
    by_cases hp : p.1 = k
    · simp [jsGet, hp]
    · simp [jsGet, hp] at h ⊢
      exact ih h

theorem jsGet_map_update_ne {m : JsMap α} {k k' : String} (v : α) (h : k' ≠ k) :
    jsGet (m.map (fun p => if p.1 = k then (k, v) else p)) k' = jsGet m k' := by
  induction m with
  | nil => rfl
  | cons p ps ih =>
    by_cases hp : p.1 = k
    · have hkk : k ≠ k' := fun hkk => h hkk.symm
      simp [jsGet, hp, hkk]
      exact ih
    · by_cases hp' : p.1 = k'
      · simp [jsGet, hp, hp', h]
      · simp [jsGet, hp, hp']
        exact ih

theorem jsGet_append (m l : JsMap α) (k : String) :
    jsGet (m ++ l) k = match jsGet m k with
      | some v => some v
      | none => jsGet l k := by
  induction m with
  | nil => simp [jsGet]
  | cons p ps ih =>
    by_cases hp : p.1 = k
    · simp [jsGet, hp]
    · simp [jsGet, hp]
      exact ih

theorem jsGet_jsSet_self (m : JsMap α) (k : String) (v : α) :
    jsGet (jsSet m k v) k = some v := by
  unfold jsSet
  cases h : jsGet m k with
  | none =>
    simp [h, jsGet_append, jsGet]
  | some w =>
    simp [h]
    exact jsGet_map_update_of_some v h

theorem jsGet_jsSet_ne (m : JsMap α) (k k' : String) (v : α) (h : k' ≠ k) :
    jsGet (jsSet m k v) k' = jsGet m k' := by
  unfold jsSet
  cases hg : jsGet m k with
  | none =>
    simp [hg, jsGet_append]
    cases hg' : jsGet m k' with
    | none => simp [jsGet, Ne.symm h]
    | some w => simp
  | some w =>
    simp [hg]
    exact jsGet_map_update_ne v h

theorem jsGet_eq_none_iff (m : JsMap α) (k : String) :
    jsGet m k = none ↔ k ∉ m.map Prod.fst := by
  induction m with
  | nil => simp [jsGet]
  | cons p ps ih =>
    by_cases hp : p.1 = k
    · simp [jsGet, hp]
    · have hkp : ¬ k = p.1 := fun hh => hp hh.symm
      simp [jsGet, hp, ih, hkp]

theorem keys_jsSet (m : JsMap α) (k : String) (v : α) :
    (jsSet m k v).map Prod.fst =
      if (jsGet m k).isSome then m.map Prod.fst else m.map Prod.fst ++ [k] := by
  unfold jsSet
  cases h : jsGet m k with
  | none =>
    simp
  | some w =>
    simp [List.map_map]
    intro a b _
    by_cases ha : a = k
    · simp [ha]
    · simp [ha]

end MapLemmas

section IndexLemmas

theorem jsGet_buildGroups (key : DatabaseRecord → String) (c : String) :
    ∀ (db : List DatabaseRecord) (acc : JsMap (List DatabaseRecord)),
      jsGet (buildGroups key acc db) c =
        if jsGet acc c = none ∧ db.filter (fun r => key r == c) = [] then none
        else some ((jsGet acc c).getD [] ++ db.filter (fun r => key r == c)) := by
  intro db
  induction db with
  | nil =>
    intro acc
    cases h : jsGet acc c with
    | none => simp [buildGroups, h]
    | some v => simp [buildGroups, h]
  | cons r rest ih =>
    intro acc
    have hfold : buildGroups key acc (r :: rest) = buildGroups key (pushAt acc (key r) r) rest := rfl
    rw [hfold, ih]
    by_cases hk : key r = c
    · have hget : jsGet (pushAt acc (key r) r) c = some ((jsGet acc c).getD [] ++ [r]) := by
        rw [← hk]
        exact jsGet_jsSet_self _ _ _
      have hfil : (r :: rest).filter (fun r => key r == c) =
          r :: rest.filter (fun r => key r == c) := by
        simp [List.filter_cons, hk]
      rw [hget, hfil]
      simp [List.append_assoc]
    · have hget : jsGet (pushAt acc (key r) r) c = jsGet acc c :=
        jsGet_jsSet_ne _ _ _ _ (fun hh => hk hh.symm)
      have hfil : (r :: rest).filter (fun r => key r == c) =
          rest.filter (fun r => key r == c) := by
        simp [List.filter_cons, hk]
      rw [hget, hfil]

theorem searchByCategory_eq (db : List DatabaseRecord) (c : String) :
    searchByCategory db c = db.filter (fun r => r.categoryName == c) := by
  unfold searchByCategory dbByCategory
  rw [jsGet_buildGroups]
  by_cases h : db.filter (fun r => r.categoryName == c) = []
  · simp [jsGet, h]
  · simp [jsGet, h]

theorem keys_buildGroups (key : DatabaseRecord → String) :
    ∀ (db : List DatabaseRecord) (acc : JsMap (List DatabaseRecord)),
      (buildGroups key acc db).map Prod.fst =
        acc.map Prod.fst ++ dedupFrom (acc.map Prod.fst) (db.map key) := by
  intro db
  induction db with
  | nil => intro acc; simp [buildGroups, dedupFrom]
  | cons r rest ih =>
    intro acc
    have hfold : buildGroups key acc (r :: rest) = buildGroups key (pushAt acc (key r) r) rest := rfl
    rw [hfold, ih]
    have hkeys : (pushAt acc (key r) r).map Prod.fst =
        if (jsGet acc (key r)).isSome then acc.map Prod.fst
        else acc.map Prod.fst ++ [key r] := keys_jsSet _ _ _
    by_cases hmem : key r ∈ acc.map Prod.fst
    · have hsome : (jsGet acc (key r)).isSome := by
        cases hg : jsGet acc (key r) with
        | none => exact absurd ((jsGet_eq_none_iff _ _).mp hg) (not_not_intro hmem)
        | some v => rfl
      rw [hkeys]
      simp [hsome, List.map_cons, dedupFrom, hmem]
    · have hnone : jsGet acc (key r) = none := (jsGet_eq_none_iff _ _).mpr hmem
      rw [hkeys]
      simp [hnone, List.map_cons, dedupFrom, hmem, List.append_assoc]

theorem jsGet_foldl_bySubStep (c : String) :
    ∀ (db : List DatabaseRecord) (acc : JsMap (JsMap (List DatabaseRecord))),
      jsGet (db.foldl bySubStep acc) c =
        if jsGet acc c = none ∧ db.filter (fun r => r.categoryName == c) = [] then none
        else some (buildGroups (fun r => r.categorySubName) ((jsGet acc c).getD [])
          (db.filter (fun r => r.categoryName == c))) := by
  intro db
  induction db with
  | nil =>
    intro acc
    cases h : jsGet acc c with
    | none => simp [h, buildGroups]
    | some v => simp [h, buildGroups]
  | cons r rest ih =>
    intro acc
    have hfold : (r :: rest).foldl bySubStep acc = rest.foldl bySubStep (bySubStep acc r) := rfl
    rw [hfold, ih]
    by_cases hk : r.categoryName = c
    · have hget : jsGet (bySubStep acc r) c =
          some (pushAt ((jsGet acc c).getD []) r.categorySubName r) := by
        unfold bySubStep
        rw [← hk]
        exact jsGet_jsSet_self _ _ _
      have hfil : (r :: rest).filter (fun r => r.categoryName == c) =
          r :: rest.filter (fun r => r.categoryName == c) := by
        simp [List.filter_cons, hk]
      rw [hget, hfil]
      simp [buildGroups]
    · have hget : jsGet (bySubStep acc r) c = jsGet acc c := by
        unfold bySubStep
        exact jsGet_jsSet_ne _ _ _ _ (fun hh => hk hh.symm)
      have hfil : (r :: rest).filter (fun r => r.categoryName == c) =
          rest.filter (fun r => r.categoryName == c) := by
        simp [List.filter_cons, hk]
      rw [hget, hfil]

theorem jsGet_dbBySubCategory (db : List DatabaseRecord) (c : String) :
    jsGet (dbBySubCategory db) c =
      if db.filter (fun r => r.categoryName == c) = [] then none
      else some (buildGroups (fun r => r.categorySubName) []
        (db.filter (fun r => r.categoryName == c))) := by
  unfold dbBySubCategory
  rw [jsGet_foldl_bySubStep]
  simp [jsGet]

theorem getSubCategories_eq (db : List DatabaseRecord) (c : String) :
    getSubCategories db c =
      dedupFrom [] ((db.filter (fun r => r.categoryName == c)).map
        (fun r => r.categorySubName)) := by
  unfold getSubCategories
  rw [jsGet_dbBySubCategory]
  by_cases h : db.filter (fun r => r.categoryName == c) = []
  · simp [h, dedupFrom]
  · simp only [h, if_neg (by simp [h] : ¬ db.filter (fun r => r.categoryName == c) = [])]
    simpa using keys_buildGroups (fun r => r.categorySubName)
      (db.filter (fun r => r.categoryName == c)) []

theorem searchBySubCategory_eq (db : List DatabaseRecord) (c s : String) :
    searchBySubCategory db c s =
      if db.filter (fun r => r.categoryName == c) = [] then none
      else some ((db.filter (fun r => r.categoryName == c)).filter
        (fun r => r.categorySubName == s)) := by
  unfold searchBySubCategory
  rw [jsGet_dbBySubCategory]
  by_cases h : db.filter (fun r => r.categoryName == c) = []
  · simp [h]
  · rw [if_neg h, if_neg h, Option.map_some', jsGet_buildGroups]
    by_cases h2 : (db.filter (fun r => r.categoryName == c)).filter
        (fun r => r.categorySubName == s) = []
    · simp [jsGet, h2]
    · rw [if_neg (fun hc => h2 hc.2)]
      simp [jsGet]

end IndexLemmas

section DedupLemmas

theorem mem_dedupFrom : ∀ (xs seen : List String) (y : String),
    y ∈ dedupFrom seen xs ↔ y ∈ xs ∧ y ∉ seen := by
  intro xs
  induction xs with
  | nil => intro seen y; simp [dedupFrom]
  | cons x rest ih =>
    intro seen y
    by_cases hx : x ∈ seen
    · rw [dedupFrom, if_pos hx, ih]
      constructor
      · exact fun h => ⟨List.mem_cons_of_mem x h.1, h.2⟩
      · rintro ⟨hy, hys⟩
        rcases List.mem_cons.mp hy with rfl | hy'
        · exact absurd hx hys
        · exact ⟨hy', hys⟩
    · rw [dedupFrom, if_neg hx]
      constructor
      · intro h
        rcases List.mem_cons.mp h with rfl | h'
        · exact ⟨List.mem_cons_self _ _, hx⟩
        · have := (ih _ y).mp h'
          refine ⟨List.mem_cons_of_mem x this.1, fun hs => this.2 ?_⟩
          exact List.mem_append.mpr (Or.inl hs)
      · rintro ⟨hy, hys⟩
        rcases List.mem_cons.mp hy with rfl | hy'
        · exact List.mem_cons_self _ _
        · by_cases hyx : y = x
          · exact hyx ▸ List.mem_cons_self _ _
          · refine List.mem_cons_of_mem x ((ih _ y).mpr ⟨hy', fun hs => ?_⟩)
            rcases List.mem_append.mp hs with h1 | h2
            · exact hys h1
            · exact hyx (List.mem_singleton.mp h2)

theorem nodup_dedupFrom : ∀ (xs seen : List String), (dedupFrom seen xs).Nodup := by
  intro xs
  induction xs with
  | nil => intro seen; simp [dedupFrom]
  | cons x rest ih =>
    intro seen
    by_cases hx : x ∈ seen
    · rw [dedupFrom, if_pos hx]; exact ih seen
    · rw [dedupFrom, if_neg hx]
      refine List.nodup_cons.mpr ⟨fun hmem => ?_, ih _⟩
      have := (mem_dedupFrom rest (seen ++ [x]) x).mp hmem
      exact this.2 (List.mem_append.mpr (Or.inr (List.mem_singleton.mpr rfl)))

theorem pairwise_indexOf_dedupFrom : ∀ (xs seen : List String),
    (dedupFrom seen xs).Pairwise
      (fun a b => xs.indexOf a < xs.indexOf b) := by
  intro xs
  induction xs with
  | nil => intro seen; simp [dedupFrom]
  | cons x rest ih =>
    intro seen
    by_cases hx : x ∈ seen
    · rw [dedupFrom, if_pos hx]
      refine (ih seen).imp_of_mem ?_
      intro a b ha hb hab
      have hane : a ≠ x := by
        intro h
        exact ((mem_dedupFrom rest seen a).mp ha).2 (h ▸ hx)
      have hbne : b ≠ x := by
        intro h
        exact ((mem_dedupFrom rest seen b).mp hb).2 (h ▸ hx)
      rw [List.indexOf_cons_ne rest (fun h => hane h.symm),
        List.indexOf_cons_ne rest (fun h => hbne h.symm)]
      exact Nat.succ_lt_succ hab
    · rw [dedupFrom, if_neg hx]
      refine List.pairwise_cons.mpr ⟨?_, ?_⟩
      · intro b hb
        have hbne : b ≠ x := by
          intro h
          exact ((mem_dedupFrom rest (seen ++ [x]) b).mp hb).2
            (h ▸ List.mem_append.mpr (Or.inr (List.mem_singleton.mpr rfl)))
        rw [List.indexOf_cons_self, List.indexOf_cons_ne rest (fun h => hbne h.symm)]
        exact Nat.succ_pos _
      · refine (ih (seen ++ [x])).imp_of_mem ?_
        intro a b ha hb hab
        have hane : a ≠ x := by
          intro h
          exact ((mem_dedupFrom rest (seen ++ [x]) a).mp ha).2
            (h ▸ List.mem_append.mpr (Or.inr (List.mem_singleton.mpr rfl)))
        have hbne : b ≠ x := by
          intro h
          exact ((mem_dedupFrom rest (seen ++ [x]) b).mp hb).2
            (h ▸ List.mem_append.mpr (Or.inr (List.mem_singleton.mpr rfl)))
        rw [List.indexOf_cons_ne rest (fun h => hane h.symm),
          List.indexOf_cons_ne rest (fun h => hbne h.symm)]
        exact Nat.succ_lt_succ hab

theorem foldl_setInsert : ∀ (xs acc : List String),
    xs.foldl setInsert acc = acc ++ dedupFrom acc xs := by
  intro xs
  induction xs with
  | nil => intro acc; simp [dedupFrom]
  | cons x rest ih =>
    intro acc
    by_cases hx : x ∈ acc
    · have hstep : setInsert acc x = acc := by simp [setInsert, hx]
      rw [List.foldl_cons, hstep, ih, dedupFrom, if_pos hx]
    · have hstep : setInsert acc x = acc ++ [x] := by simp [setInsert, hx]
      rw [List.foldl_cons, hstep, ih, dedupFrom, if_neg hx]
      simp

theorem getCategories_eq (db : List DatabaseRecord) :
    getCategories db = dedupFrom [] (db.map (fun r => r.categoryName)) := by
  unfold getCategories jsSetOf
  rw [foldl_setInsert]
  simp

end DedupLemmas

section PermLemmas

theorem flatten_map_nil {β : Type} (ks : List String) :
    (ks.map (fun _ => ([] : List β))).flatten = [] := by
  induction ks with
  | nil => rfl
  | cons k rest ih => simp [ih]

theorem perm_flatten_filter {β : Type} (f : β → String) :
    ∀ (l : List β) (ks : List String), ks.Nodup → (∀ x ∈ l, f x ∈ ks) →
      ((ks.map (fun k => l.filter (fun x => f x == k))).flatten).Perm l := by
  intro l
  induction l with
  | nil =>
    intro ks _ _
    simp [flatten_map_nil]
  | cons x rest ih =>
    intro ks hnd hcov
    obtain ⟨ks₁, ks₂, rfl⟩ := List.append_of_mem (hcov x (List.mem_cons_self x rest))
    have hnotin₁ : f x ∉ ks₁ := by
      intro hmem
      exact (List.disjoint_of_nodup_append hnd) hmem (List.mem_cons_self _ _)
    have hnotin₂ : f x ∉ ks₂ :=
      (List.nodup_cons.mp (hnd.sublist (List.sublist_append_right ks₁ _))).1
    have hmap₁ : ks₁.map (fun k => (x :: rest).filter (fun y => f y == k)) =
        ks₁.map (fun k => rest.filter (fun y => f y == k)) := by
      apply List.map_congr_left
      intro k hk
      have : ¬ (f x == k) = true := by
        simp only [beq_iff_eq]
        intro h
        exact hnotin₁ (h ▸ hk)
      simp [List.filter_cons, this]
    have hmap₂ : ks₂.map (fun k => (x :: rest).filter (fun y => f y == k)) =
        ks₂.map (fun k => rest.filter (fun y => f y == k)) := by
      apply List.map_congr_left
      intro k hk
      have : ¬ (f x == k) = true := by
        simp only [beq_iff_eq]
        intro h
        exact hnotin₂ (h ▸ hk)
      simp [List.filter_cons, this]
    have hmid : (x :: rest).filter (fun y => f y == f x) =
        x :: rest.filter (fun y => f y == f x) := by
      simp [List.filter_cons]
    rw [List.map_append, List.map_cons, List.flatten_append, List.flatten_cons,
      hmap₁, hmap₂, hmid]
    have hperm1 :
        ((ks₁.map (fun k => rest.filter (fun y => f y == k))).flatten ++
          x :: (rest.filter (fun y => f y == f x) ++
            (ks₂.map (fun k => rest.filter (fun y => f y == k))).flatten)).Perm
        (x :: ((ks₁.map (fun k => rest.filter (fun y => f y == k))).flatten ++
          (rest.filter (fun y => f y == f x) ++
            (ks₂.map (fun k => rest.filter (fun y => f y == k))).flatten))) :=
      List.perm_middle
    refine List.Perm.trans hperm1 ?_
    refine List.Perm.cons x ?_
    have hre : (ks₁.map (fun k => rest.filter (fun y => f y == k))).flatten ++
        (rest.filter (fun y => f y == f x) ++
          (ks₂.map (fun k => rest.filter (fun y => f y == k))).flatten) =
        (((ks₁ ++ f x :: ks₂).map (fun k => rest.filter (fun y => f y == k))).flatten) := by
      rw [List.map_append, List.map_cons, List.flatten_append, List.flatten_cons]
    rw [hre]
    refine ih (ks₁ ++ f x :: ks₂) hnd ?_
    intro y hy
    exact hcov y (List.mem_cons_of_mem x hy)

end PermLemmas

section LoaderLemmas

theorem foldl_append_eq {α β : Type} (g : α → List β) :
    ∀ (l : List α) (init : List β),
      l.foldl (fun acc x => acc ++ g x) init = init ++ (l.map g).flatten := by
  intro l
  induction l with
  | nil => intro init; simp
  | cons x rest ih =>
    intro init
    rw [List.foldl_cons, ih]
    simp [List.append_assoc]

theorem flatten_map_singleton {α β : Type} (f : α → β) (l : List α) :
    (l.map (fun t => [f t])).flatten = l.map f := by
  induction l with
  | nil => rfl
  | cons x rest ih => simp [ih]

theorem transform_eq (raw : List DatabaseRawCategoryRecord) :
    transform raw =
      (raw.map (fun cat =>
        (cat.tags.map (fun e => e.2.map (recordOfTag cat e.1))).flatten)).flatten := by
  unfold transform
  have hinner : ∀ (cat : DatabaseRawCategoryRecord) (records : List DatabaseRecord)
      (e : String × List DatabaseRawTagRecord),
      e.2.foldl (fun rs t => rs ++ [recordOfTag cat e.1 t]) records =
        records ++ e.2.map (recordOfTag cat e.1) := by
    intro cat records e
    rw [foldl_append_eq (fun t => [recordOfTag cat e.1 t]), flatten_map_singleton]
  have hmid : ∀ (cat : DatabaseRawCategoryRecord) (records : List DatabaseRecord),
      cat.tags.foldl
          (fun rs e => e.2.foldl (fun rs t => rs ++ [recordOfTag cat e.1 t]) rs) records =
        records ++ (cat.tags.map (fun e => e.2.map (recordOfTag cat e.1))).flatten := by
    intro cat records
    have hfun : (fun (rs : List DatabaseRecord) (e : String × List DatabaseRawTagRecord) =>
        e.2.foldl (fun rs t => rs ++ [recordOfTag cat e.1 t]) rs) =
        (fun rs e => rs ++ e.2.map (recordOfTag cat e.1)) := by
      funext rs e
      exact hinner cat rs e
    rw [hfun, foldl_append_eq
      (fun (e : String × List DatabaseRawTagRecord) => e.2.map (recordOfTag cat e.1))]
  have hfun2 : (fun (rs : List DatabaseRecord) (cat : DatabaseRawCategoryRecord) =>
      cat.tags.foldl
        (fun rs e => e.2.foldl (fun rs t => rs ++ [recordOfTag cat e.1 t]) rs) rs) =
      (fun rs cat =>
        rs ++ (cat.tags.map (fun e => e.2.map (recordOfTag cat e.1))).flatten) := by
    funext rs cat
    exact hmid cat rs
  rw [hfun2, foldl_append_eq
    (fun (cat : DatabaseRawCategoryRecord) =>
      (cat.tags.map (fun e => e.2.map (recordOfTag cat e.1))).flatten)]
  simp

end LoaderLemmas

section StringLemmas

/-- `p` occurs as a case-sensitive, unanchored substring of `s`. -/
abbrev strOccurs (p s : String) : Prop := p.data <:+: s.data

theorem jsIncludes_iff (s p : String) : jsIncludes s p = true ↔ strOccurs p s := by
  simp [jsIncludes, strOccurs]

theorem strOccurs_of_data_eq {p s : String} (h : p.data = s.data) : strOccurs p s :=
  ⟨[], [], by simp [h]⟩

theorem strOccurs_append_left {p t : String} (s : String) (h : strOccurs p t) :
    strOccurs p (s ++ t) := by
  obtain ⟨a, b, hab⟩ := h
  exact ⟨s.data ++ a, b, by rw [String.data_append, ← hab]; simp [List.append_assoc]⟩

theorem strOccurs_append_right {p s : String} (t : String) (h : strOccurs p s) :
    strOccurs p (s ++ t) := by
  obtain ⟨a, b, hab⟩ := h
  exact ⟨a, b ++ t.data, by rw [String.data_append, ← hab]; simp [List.append_assoc]⟩

theorem jsOrString_some_empty (fb : String) : jsOrString (some "") fb = fb := by
  simp [jsOrString]

end StringLemmas

section FormatterLemmas

theorem strOccurs_head3 {p : String} (a b c rest : String)
    (h : p.data = a.data ++ b.data ++ c.data) :
    strOccurs p (a ++ (b ++ (c ++ rest))) :=
  ⟨[], rest.data, by simp [String.data_append, h, List.append_assoc]⟩

theorem strOccurs_all3 {p : String} (a b c : String)
    (h : p.data = a.data ++ b.data ++ c.data) :
    strOccurs p (a ++ (b ++ c)) :=
  strOccurs_of_data_eq (by simp [String.data_append, h, List.append_assoc])

theorem formatAsTagInfo_singleton (r : DatabaseRecord) :
    formatAsTagInfo [r] = tagInfoEntry r := by
  simp [formatAsTagInfo, joinSep]

theorem formatAsSourceInfo_singleton (r : DatabaseRecord) :
    formatAsSourceInfo [r] = sourceInfoEntry r := by
  simp [formatAsSourceInfo, joinSep]

theorem tagInfoEntry_plain (r : DatabaseRecord)
    (h : jsStartsWith r.tagName ".list[i]" = false) :
    tagInfoEntry r =
      "## " ++ r.tagName ++ "\n" ++ r.tagDescription ++ "\n" ++ "" ++ "\n" ++
      "### Category" ++ "\n" ++ r.categoryName ++ "\n" ++
      "### Sub Category" ++ "\n" ++ r.categorySubName ++ "\n" ++
      "### Code Example" ++ "\n" ++ jsOrString r.tagSampleCode "No example provided" ++ "\n" ++
      "### Output Example" ++ "\n" ++ jsOrString r.tagHtmlOutputImage "No example provided" := by
  unfold tagInfoEntry
  rw [if_pos (by simp [h] : ¬ (jsStartsWith r.tagName ".list[i]" = true))]
  simp only [joinSep, String.append_assoc]

theorem tagInfoEntry_listItem (r : DatabaseRecord)
    (h : jsStartsWith r.tagName ".list[i]" = true) :
    tagInfoEntry r =
      "## " ++ ("$item.group" ++ r.tagName) ++ "\n" ++ r.tagDescription ++ "\n" ++ "" ++ "\n" ++
      "### Category" ++ "\n" ++ r.categoryName ++ "\n" ++
      "### Sub Category" ++ "\n" ++ r.categorySubName ++ "\n" ++
      "### Code Example" ++ "\n" ++ jsOrString r.tagSampleCode "No example provided" := by
  unfold tagInfoEntry
  rw [if_neg (by simp [h] : ¬ ¬ (jsStartsWith r.tagName ".list[i]" = true))]
  simp only [joinSep, String.append_assoc]

theorem sourceInfoEntry_eq (r : DatabaseRecord) :
    sourceInfoEntry r =
      "## " ++ r.tagName ++ "\n" ++ r.tagDescription ++ "\n" ++ "" ++ "\n" ++
      "### Category" ++ "\n" ++ r.categoryName ++ "\n" ++
      "### Sub Category" ++ "\n" ++ r.categorySubName ++ "\n" ++
      "### Category source link" ++ "\n" ++ r.categoryLink ++ "\n" ++
      "### Tag source link" ++ "\n" ++ jsOrString r.tagLink "No tag source provided" := by
  unfold sourceInfoEntry
  simp only [joinSep, String.append_assoc]

end FormatterLemmas

section Claims

/-- C7: `formatAsCategories` applied to the empty list returns exactly
`"Error: No categories found"`, and applied to any non-empty list returns
exactly the `"## Categories"` line followed by one `"- <name>"` line per
entry, newline-joined, in input order; in particular
`formatAsCategories ["A","B"] = "## Categories\n- A\n- B"`. -/
theorem claim_c7_formatAsCategories :
    formatAsCategories [] = "Error: No categories found" ∧
    (∀ (c : String) (cs : List String),
      formatAsCategories (c :: cs) =
        "## Categories\n" ++ joinSep "\n" ((c :: cs).map (fun n => "- " ++ n))) ∧
    formatAsCategories ["A", "B"] = "## Categories\n- A\n- B" := by
  refine ⟨by decide, ?_, by decide⟩
  intro c cs
  simp [formatAsCategories]

/-- C6: for a record whose tag name starts with `.list[i]`, `formatAsTagInfo`
renders the heading `"## "` followed by `"$item.group"` concatenated with the
unmodified tag name and omits the `### Output Example` section (the rendered
block ends with the Code Example section); otherwise the heading is the
unmodified tag name and the `### Output Example` section is present. -/
theorem claim_c6_tagInfo_listItem_heading (r : DatabaseRecord) :
    (jsStartsWith r.tagName ".list[i]" = true →
      formatAsTagInfo [r] =
        "## " ++ ("$item.group" ++ r.tagName) ++ "\n" ++ r.tagDescription ++ "\n" ++ "" ++ "\n" ++
        "### Category" ++ "\n" ++ r.categoryName ++ "\n" ++
        "### Sub Category" ++ "\n" ++ r.categorySubName ++ "\n" ++
        "### Code Example" ++ "\n" ++ jsOrString r.tagSampleCode "No example provided") ∧
    (jsStartsWith r.tagName ".list[i]" = false →
      formatAsTagInfo [r] =
        "## " ++ r.tagName ++ "\n" ++ r.tagDescription ++ "\n" ++ "" ++ "\n" ++
        "### Category" ++ "\n" ++ r.categoryName ++ "\n" ++
        "### Sub Category" ++ "\n" ++ r.categorySubName ++ "\n" ++
        "### Code Example" ++ "\n" ++ jsOrString r.tagSampleCode "No example provided" ++ "\n" ++
        "### Output Example" ++ "\n" ++ jsOrString r.tagHtmlOutputImage "No example provided") := by
  constructor
  · intro h
    rw [formatAsTagInfo_singleton, tagInfoEntry_listItem r h]
  · intro h
    rw [formatAsTagInfo_singleton, tagInfoEntry_plain r h]

/-- Witness for C6 at the spec's concrete example: tag name `".list[i].foo"`
yields the heading `"## $item.group.list[i].foo"` and no Output Example
section, while a plain tag name keeps its heading and has one. -/
theorem claim_c6_witness :
    jsStartsWith ".list[i].foo" ".list[i]" = true ∧
    formatAsTagInfo [⟨".list[i].foo", "c", "s", "d", "l", none, none, none⟩] =
      "## $item.group.list[i].foo\nd\n\n### Category\nc\n### Sub Category\ns\n### Code Example\nNo example provided" ∧
    jsStartsWith "$item.name" ".list[i]" = false ∧
    formatAsTagInfo [⟨"$item.name", "c", "s", "d", "l", none, none, none⟩] =
      "## $item.name\nd\n\n### Category\nc\n### Sub Category\ns\n### Code Example\nNo example provided\n### Output Example\nNo example provided" := by
  refine ⟨by decide, ?_, by decide, ?_⟩
  · exact ((claim_c6_tagInfo_listItem_heading
      ⟨".list[i].foo", "c", "s", "d", "l", none, none, none⟩).1 (by decide)).trans (by decide)
  · exact ((claim_c6_tagInfo_listItem_heading
      ⟨"$item.name", "c", "s", "d", "l", none, none, none⟩).2 (by decide)).trans (by decide)

/-- C9: the formatter fallbacks are triggered by JS falsiness, so by the
empty string as well as by `null`: an empty-string `tagSampleCode` renders
`"### Code Example"` followed by `"No example provided"`, an empty-string
`tagHtmlOutputImage` renders the same fallback in the Output Example
section (present on non-`.list[i]` records), and an empty-string `tagLink`
makes `formatAsSourceInfo` render `"No tag source provided"`. -/
theorem claim_c9_empty_string_fallbacks (r : DatabaseRecord) :
    (r.tagSampleCode = some "" →
      strOccurs "### Code Example\nNo example provided" (formatAsTagInfo [r])) ∧
    (r.tagHtmlOutputImage = some "" → jsStartsWith r.tagName ".list[i]" = false →
      strOccurs "### Output Example\nNo example provided" (formatAsTagInfo [r])) ∧
    (r.tagLink = some "" →
      strOccurs "### Tag source link\nNo tag source provided" (formatAsSourceInfo [r])) := by
  refine ⟨?_, ?_, ?_⟩
  · intro hsc
    rw [formatAsTagInfo_singleton]
    cases hs : jsStartsWith r.tagName ".list[i]" with
    | false =>
      rw [tagInfoEntry_plain r hs, hsc, jsOrString_some_empty]
      simp only [String.append_assoc]
      iterate 15 apply strOccurs_append_left
      exact strOccurs_head3 _ _ _ _ (by decide)
    | true =>
      rw [tagInfoEntry_listItem r hs, hsc, jsOrString_some_empty]
      simp only [String.append_assoc]
      iterate 16 apply strOccurs_append_left
      exact strOccurs_all3 _ _ _ (by decide)
  · intro hhtml hs
    rw [formatAsTagInfo_singleton, tagInfoEntry_plain r hs, hhtml, jsOrString_some_empty]
    simp only [String.append_assoc]
    iterate 19 apply strOccurs_append_left
    exact strOccurs_all3 _ _ _ (by decide)
  · intro hlink
    rw [formatAsSourceInfo_singleton, sourceInfoEntry_eq, hlink, jsOrString_some_empty]
    simp only [String.append_assoc]
    iterate 19 apply strOccurs_append_left
    exact strOccurs_all3 _ _ _ (by decide)

/-- Witness for C9 at concrete records whose nullable fields hold `""`. -/
theorem claim_c9_witness :
    strOccurs "### Code Example\nNo example provided"
      (formatAsTagInfo [⟨"t", "c", "s", "d", "l", none, some "", none⟩]) ∧
    strOccurs "### Output Example\nNo example provided"
      (formatAsTagInfo [⟨"t", "c", "s", "d", "l", none, none, some ""⟩]) ∧
    strOccurs "### Tag source link\nNo tag source provided"
      (formatAsSourceInfo [⟨"t", "c", "s", "d", "l", some "", none, none⟩]) :=
  ⟨(claim_c9_empty_string_fallbacks ⟨"t", "c", "s", "d", "l", none, some "", none⟩).1 rfl,
   (claim_c9_empty_string_fallbacks ⟨"t", "c", "s", "d", "l", none, none, some ""⟩).2.1 rfl
     (by decide),
   (claim_c9_empty_string_fallbacks ⟨"t", "c", "s", "d", "l", some "", none, none⟩).2.2 rfl⟩

/-- C2: `getCategories` lists exactly the `categoryName` values occurring in
the flat record list, without duplicates, ordered by first occurrence; and
for every listed category `c`, `searchByCategory c` is non-empty and every
record in it has `categoryName = c`. -/
theorem claim_c2_categories_index (db : List DatabaseRecord) :
    (∀ c, c ∈ getCategories db ↔ c ∈ db.map (fun r => r.categoryName)) ∧
    (getCategories db).Nodup ∧
    (getCategories db).Pairwise (fun a b =>
      (db.map (fun r => r.categoryName)).indexOf a <
        (db.map (fun r => r.categoryName)).indexOf b) ∧
    (∀ c ∈ getCategories db, searchByCategory db c ≠ [] ∧
      ∀ r ∈ searchByCategory db c, r.categoryName = c) := by
  refine ⟨?_, ?_, ?_, ?_⟩
  · intro c
    rw [getCategories_eq, mem_dedupFrom]
    simp
  · rw [getCategories_eq]
    exact nodup_dedupFrom _ _
  · rw [getCategories_eq]
    exact pairwise_indexOf_dedupFrom _ _
  · intro c hc
    rw [getCategories_eq, mem_dedupFrom] at hc
    obtain ⟨r, hr, hrc⟩ := List.mem_map.mp hc.1
    rw [searchByCategory_eq]
    constructor
    · intro hnil
      rw [List.filter_eq_nil_iff] at hnil
      exact hnil r hr (by simp [hrc])
    · intro x hx
      have hmem := List.mem_filter.mp hx
      simpa using hmem.2

/-- Witness for C2 on a concrete two-category dataset. -/
theorem claim_c2_witness :
    "A" ∈ getCategories [mkRec "t1" "A" "S", mkRec "t2" "B" "S"] ∧
    searchByCategory [mkRec "t1" "A" "S", mkRec "t2" "B" "S"] "A" ≠ [] ∧
    ∀ r ∈ searchByCategory [mkRec "t1" "A" "S", mkRec "t2" "B" "S"] "A",
      r.categoryName = "A" := by
  refine ⟨by decide, ?_⟩
  have h := (claim_c2_categories_index [mkRec "t1" "A" "S", mkRec "t2" "B" "S"]).2.2.2
    "A" (by decide)
  exact ⟨h.1, h.2⟩

/-- C3: whenever `s` is listed by `getSubCategories c`, the two-level lookup
`searchBySubCategory c s` succeeds with a non-empty list whose records all
have `categoryName = c` and `categorySubName = s`. -/
theorem claim_c3_subcategory_search (db : List DatabaseRecord) (c s : String)
    (h : s ∈ getSubCategories db c) :
    ∃ l, searchBySubCategory db c s = some l ∧ l ≠ [] ∧
      ∀ r ∈ l, r.categoryName = c ∧ r.categorySubName = s := by
  rw [getSubCategories_eq, mem_dedupFrom] at h
  obtain ⟨r, hrmem, hrs⟩ := List.mem_map.mp h.1
  have hne : db.filter (fun r => r.categoryName == c) ≠ [] := by
    intro h0
    rw [h0] at hrmem
    exact absurd hrmem (List.not_mem_nil r)
  rw [searchBySubCategory_eq, if_neg hne]
  refine ⟨_, rfl, ?_, ?_⟩
  · intro h0
    rw [List.filter_eq_nil_iff] at h0
    exact h0 r hrmem (by simp [hrs])
  · intro x hx
    have h2 := List.mem_filter.mp hx
    have h1 := List.mem_filter.mp h2.1
    exact ⟨by simpa using h1.2, by simpa using h2.2⟩

/-- Witness for C3 on a concrete dataset. -/
theorem claim_c3_witness :
    "S" ∈ getSubCategories [mkRec "t" "C" "S"] "C" ∧
    ∃ l, searchBySubCategory [mkRec "t" "C" "S"] "C" "S" = some l ∧ l ≠ [] ∧
      ∀ r ∈ l, r.categoryName = "C" ∧ r.categorySubName = "S" :=
  ⟨by decide, claim_c3_subcategory_search [mkRec "t" "C" "S"] "C" "S" (by decide)⟩

/-- The filter predicate of `searchByTagDescription`, read propositionally:
the keyword occurs in the description, or the output image is non-null and
the keyword occurs in it. -/
theorem tagDescription_pred_iff (r : DatabaseRecord) (k : String) :
    (jsIncludes r.tagDescription k ||
      (r.tagHtmlOutputImage.map (fun s => jsIncludes s k)).getD false) = true ↔
    (strOccurs k r.tagDescription ∨
      ∃ s, r.tagHtmlOutputImage = some s ∧ strOccurs k s) := by
  cases h : r.tagHtmlOutputImage with
  | none => simp [h, jsIncludes, strOccurs]
  | some s => simp [h, jsIncludes, strOccurs]

/-- C4: `searchByTagDescription keyword` returns a record iff the keyword is
a case-sensitive unanchored substring of its description or of its non-null
output-sample reference, and returns `[]` when no record matches. -/
theorem claim_c4_keyword_search (db : List DatabaseRecord) (k : String) :
    (∀ r, r ∈ searchByTagDescription db k ↔
      r ∈ db ∧ (strOccurs k r.tagDescription ∨
        ∃ s, r.tagHtmlOutputImage = some s ∧ strOccurs k s)) ∧
    ((∀ r ∈ db, ¬ strOccurs k r.tagDescription ∧
        ∀ s, r.tagHtmlOutputImage = some s → ¬ strOccurs k s) →
      searchByTagDescription db k = []) := by
  constructor
  · intro r
    rw [searchByTagDescription, List.mem_filter, tagDescription_pred_iff]
  · intro hall
    rw [searchByTagDescription, List.filter_eq_nil_iff]
    intro r hr
    rw [tagDescription_pred_iff]
    rintro (hd | ⟨s, hs, hocc⟩)
    · exact (hall r hr).1 hd
    · exact (hall r hr).2 s hs hocc

/-- Witness for C4: a keyword matching nothing yields the empty list. -/
theorem claim_c4_witness :
    searchByTagDescription [⟨"t", "c", "s", "d", "l", none, none, some "x"⟩] "zzz" = [] := by
  apply (claim_c4_keyword_search [⟨"t", "c", "s", "d", "l", none, none, some "x"⟩] "zzz").2
  intro r hr
  have hreq : r = ⟨"t", "c", "s", "d", "l", none, none, some "x"⟩ := by simpa using hr
  subst hreq
  refine ⟨by decide, ?_⟩
  intro s hs
  have hsx : s = "x" := by simpa using hs.symm
  subst hsx
  decide

/-- C5: `searchByTagName name` returns exactly the records of the flat list
whose `tagName` equals `name` under exact case-sensitive comparison (kept in
list order, with multiplicity), and `[]` when none match. -/
theorem claim_c5_tag_name_search (db : List DatabaseRecord) (n : String) :
    (∀ r, r ∈ searchByTagName db n ↔ r ∈ db ∧ r.tagName = n) ∧
    List.Sublist (searchByTagName db n) db ∧
    (∀ r, r.tagName = n → (searchByTagName db n).count r = db.count r) ∧
    ((∀ r ∈ db, r.tagName ≠ n) → searchByTagName db n = []) := by
  refine ⟨?_, ?_, ?_, ?_⟩
  · intro r
    rw [searchByTagName, List.mem_filter]
    simp
  · exact List.filter_sublist db
  · intro r hr
    exact List.count_filter (by simp [hr])
  · intro hall
    rw [searchByTagName, List.filter_eq_nil_iff]
    intro r hr
    simp [hall r hr]

/-- Witness for C5 on a dataset where one tag name recurs across two
categories: the duplicate name returns both records, a missing name `[]`. -/
theorem claim_c5_witness :
    searchByTagName [mkRec "x" "A" "S", mkRec "x" "B" "S", mkRec "y" "A" "S"] "q" = [] ∧
    (searchByTagName [mkRec "x" "A" "S", mkRec "x" "B" "S", mkRec "y" "A" "S"] "x").count
      (mkRec "x" "A" "S") =
      ([mkRec "x" "A" "S", mkRec "x" "B" "S", mkRec "y" "A" "S"].count (mkRec "x" "A" "S")) :=
  ⟨(claim_c5_tag_name_search [mkRec "x" "A" "S", mkRec "x" "B" "S", mkRec "y" "A" "S"] "q").2.2.2
      (by decide),
   (claim_c5_tag_name_search [mkRec "x" "A" "S", mkRec "x" "B" "S", mkRec "y" "A" "S"] "x").2.2.1
      (mkRec "x" "A" "S") rfl⟩

/-- C8: the length of `transform`'s output equals the total number of tag
entries summed over all categories and sub-categories of the raw input, and
every raw tag entry yields a record carrying each raw field verbatim, with
the optional `sample_code` and `html_output_image` mapped to `null` (`none`)
exactly when absent. -/
theorem claim_c8_loader_transform (raw : List DatabaseRawCategoryRecord) :
    (transform raw).length =
      (raw.map (fun cat => ((cat.tags.map (fun e => e.2.length)).sum))).sum ∧
    (∀ cat ∈ raw, ∀ e ∈ cat.tags, ∀ t ∈ e.2,
      ({ tagName := t.tag, categoryName := cat.name, categorySubName := e.1,
         tagDescription := t.description, categoryLink := cat.link, tagLink := t.link,
         tagSampleCode := t.sample_code, tagHtmlOutputImage := t.html_output_image }
        : DatabaseRecord) ∈ transform raw) := by
  constructor
  · rw [transform_eq]
    simp [List.length_flatten, List.map_map, Function.comp_def]
  · intro cat hcat e he t ht
    rw [transform_eq]
    rw [List.mem_flatten]
    refine ⟨(cat.tags.map (fun e => e.2.map (recordOfTag cat e.1))).flatten,
      List.mem_map_of_mem _ hcat, ?_⟩
    rw [List.mem_flatten]
    refine ⟨e.2.map (recordOfTag cat e.1), List.mem_map_of_mem _ he, ?_⟩
    have : recordOfTag cat e.1 t ∈ e.2.map (recordOfTag cat e.1) :=
      List.mem_map_of_mem _ ht
    exact this

/-- Witness for C8 on a one-category raw input with one tag entry whose
optional fields are absent. -/
theorem claim_c8_witness :
    ({ tagName := "t", categoryName := "C", categorySubName := "S",
       tagDescription := "d", categoryLink := "L", tagLink := some "tl",
       tagSampleCode := none, tagHtmlOutputImage := none } : DatabaseRecord) ∈
      transform rawSingle :=
  (claim_c8_loader_transform rawSingle).2 rawSingleCat (by decide)
    ("S", [rawSingleTag]) (by decide) rawSingleTag (by decide)

/-- Counterexample to C1 as stated: when the outer category key is entirely
absent from the two-level map, `searchBySubCategory` does not return the
empty sequence — the JS member access on `undefined` throws a `TypeError`
(embedded as `none`), unlike the missing-sub-category case. -/
theorem claim_c1_counterexample :
    searchBySubCategory [mkRec "t" "A" "S"] "X" "Y" = none ∧
    ¬ (searchBySubCategory [mkRec "t" "A" "S"] "X" "Y" = some []) := by
  decide

/-- C1 as amended: every lookup miss of `getSubCategories`,
`searchByCategory`, `searchByTagName` and `searchByTagDescription` yields an
empty sequence, and `searchBySubCategory` yields the empty sequence when the
category exists and only the sub-category is absent; but when the category
key itself is absent, `searchBySubCategory` fails (the JS access on
`undefined` throws) instead of returning an empty sequence. -/
theorem claim_c1_lookup_miss_amended :
    (∀ (db : List DatabaseRecord) (c : String),
      c ∉ db.map (fun r => r.categoryName) → searchByCategory db c = []) ∧
    (∀ (db : List DatabaseRecord) (c : String),
      c ∉ db.map (fun r => r.categoryName) → getSubCategories db c = []) ∧
    (∀ (db : List DatabaseRecord) (n : String),
      (∀ r ∈ db, r.tagName ≠ n) → searchByTagName db n = []) ∧
    (∀ (db : List DatabaseRecord) (k : String),
      (∀ r ∈ db, ¬ strOccurs k r.tagDescription ∧
        ∀ s, r.tagHtmlOutputImage = some s → ¬ strOccurs k s) →
      searchByTagDescription db k = []) ∧
    (∀ (db : List DatabaseRecord) (c s : String),
      c ∈ db.map (fun r => r.categoryName) →
      (∀ r ∈ db, r.categoryName = c → r.categorySubName ≠ s) →
      searchBySubCategory db c s = some []) ∧
    (∀ (db : List DatabaseRecord) (c s : String),
      c ∉ db.map (fun r => r.categoryName) → searchBySubCategory db c s = none) := by
  have hfilnil : ∀ (db : List DatabaseRecord) (c : String),
      c ∉ db.map (fun r => r.categoryName) →
      db.filter (fun r => r.categoryName == c) = [] := by
    intro db c hc
    rw [List.filter_eq_nil_iff]
    intro r hr
    simp only [beq_iff_eq]
    intro hrc
    exact hc (List.mem_map.mpr ⟨r, hr, hrc⟩)
  refine ⟨?_, ?_, ?_, ?_, ?_, ?_⟩
  · intro db c hc
    rw [searchByCategory_eq, hfilnil db c hc]
  · intro db c hc
    rw [getSubCategories_eq, hfilnil db c hc]
    rfl
  · intro db n hall
    rw [searchByTagName, List.filter_eq_nil_iff]
    intro r hr
    simp [hall r hr]
  · intro db k hall
    rw [searchByTagDescription, List.filter_eq_nil_iff]
    intro r hr
    rw [tagDescription_pred_iff]
    rintro (hd | ⟨s, hs, hocc⟩)
    · exact (hall r hr).1 hd
    · exact (hall r hr).2 s hs hocc
  · intro db c s hc hsub
    obtain ⟨r, hr, hrc⟩ := List.mem_map.mp hc
    have hne : db.filter (fun r => r.categoryName == c) ≠ [] := by
      intro h0
      rw [List.filter_eq_nil_iff] at h0
      exact h0 r hr (by simp [hrc])
    rw [searchBySubCategory_eq, if_neg hne]
    congr 1
    rw [List.filter_eq_nil_iff]
    intro x hx
    have hxmem := List.mem_filter.mp hx
    simp only [beq_iff_eq]
    exact hsub x hxmem.1 (by simpa using hxmem.2)
  · intro db c s hc
    rw [searchBySubCategory_eq, if_pos (hfilnil db c hc)]

/-- Witness for the amended C1 on concrete lookups against a one-record
dataset. -/
theorem claim_c1_witness :
    searchByCategory [mkRec "t" "A" "S"] "X" = [] ∧
    getSubCategories [mkRec "t" "A" "S"] "X" = [] ∧
    searchByTagName [mkRec "t" "A" "S"] "q" = [] ∧
    searchByTagDescription [mkRec "t" "A" "S"] "zzz" = [] ∧
    searchBySubCategory [mkRec "t" "A" "S"] "A" "T" = some [] ∧
    searchBySubCategory [mkRec "t" "A" "S"] "X" "Y" = none := by
  refine ⟨claim_c1_lookup_miss_amended.1 _ "X" (by decide),
    claim_c1_lookup_miss_amended.2.1 _ "X" (by decide),
    claim_c1_lookup_miss_amended.2.2.1 _ "q" (by decide),
    ?_,
    claim_c1_lookup_miss_amended.2.2.2.2.1 _ "A" "T" (by decide) (by decide),
    claim_c1_lookup_miss_amended.2.2.2.2.2 _ "X" "Y" (by decide)⟩
  apply claim_c1_lookup_miss_amended.2.2.2.1 [mkRec "t" "A" "S"] "zzz"
  intro r hr
  have hreq : r = mkRec "t" "A" "S" := by simpa using hr
  subst hreq
  refine ⟨by decide, ?_⟩
  intro s hs
  simp [mkRec] at hs

/-- Counterexample to C10 as stated: on the dataset loaded from
`rawDupCategory` the concatenation of the sub-category buckets of `"C"` in
`getSubCategories` order is not equal, as a sequence, to
`searchByCategory "C"` — the records of the two raw entries interleave, so
the relative order differs. -/
theorem claim_c10_counterexample :
    subCategoryConcat (transform rawDupCategory) "C" ≠
      searchByCategory (transform rawDupCategory) "C" := by
  decide

/-- C10 as amended: for every dataset and category, the concatenation of
`searchBySubCategory` over `getSubCategories` in order contains exactly the
records of `searchByCategory` — as a permutation (the same records with the
same multiplicities), though not always in the same relative order. -/
theorem claim_c10_partition_amended (db : List DatabaseRecord) (c : String) :
    (subCategoryConcat db c).Perm (searchByCategory db c) := by
  rw [searchByCategory_eq]
  unfold subCategoryConcat
  by_cases h : db.filter (fun r => r.categoryName == c) = []
  · rw [getSubCategories_eq, h]
    simp [dedupFrom, h]
  · rw [getSubCategories_eq]
    have hmap : (dedupFrom []
        ((db.filter (fun r => r.categoryName == c)).map (fun r => r.categorySubName))).map
          (fun s => (searchBySubCategory db c s).getD []) =
        (dedupFrom []
        ((db.filter (fun r => r.categoryName == c)).map (fun r => r.categorySubName))).map
          (fun s => (db.filter (fun r => r.categoryName == c)).filter
            (fun r => r.categorySubName == s)) := by
      apply List.map_congr_left
      intro s _
      rw [searchBySubCategory_eq, if_neg h]
      rfl
    rw [hmap]
    refine perm_flatten_filter (fun (r : DatabaseRecord) => r.categorySubName)
      (db.filter (fun r => r.categoryName == c))
      (dedupFrom []
        ((db.filter (fun r => r.categoryName == c)).map (fun r => r.categorySubName)))
      (nodup_dedupFrom _ _) ?_
    intro x hx
    rw [mem_dedupFrom]
    exact ⟨List.mem_map_of_mem _ hx, by simp⟩

end Claims

end MsCreator
